import Mathlib

/-!
Verification of the data-transformation pipeline of
`Ukraine_graph_generator.py` (a missile-attack dashboard).

The pipeline stages embedded here, with the source lines they model:

* `remove_time`   (lines 10-13): strip the time-of-day from `time_start`;
* `process_dataset` (lines 15-25): drop descriptive columns, rename
  `time_start` to `date`, parse the column with `pd.to_datetime(...).dt.date`;
* `aggregate_data` (lines 27-36): group by date, sum `launched` /
  `destroyed`, derive the interception-rate column;
* `monthly_interception_rate` (lines 38-48): resample the daily table to
  calendar months, sum, derive the rate, format the month label;
* `filtered_data` / `filtered_monthly_data` (lines 164-168): restrict both
  tables to a `[start, end]` date range.

Machine floats of the source are modelled by exact arithmetic: the rate
column is computed on the exact quotient, and pandas' `round(0)`
(round-half-to-even) becomes the integer rounding written out in
`rateValue`.  A pandas exception (e.g. `astype(int)` applied to `inf`, or
an unparseable date) is modelled by `Option.none`; column-wise operations
become row-wise maps, and an in-place mutation of a data frame is modelled
by returning the mutated value (the post-state of the argument is the
function's result).
-/

/-- Calendar date, as carried by the `date` column after
`pd.to_datetime(...).dt.date` (year, month, day). -/
structure Date where
  year : Nat
  month : Nat
  day : Nat
deriving DecidableEq, Repr

/-- Lexicographic order on dates: exactly how Python compares
`datetime.date` objects (used by the range filter at lines 165-168). -/
def Date.le (a b : Date) : Prop :=
  a.year < b.year ∨
    (a.year = b.year ∧
      (a.month < b.month ∨ (a.month = b.month ∧ a.day ≤ b.day)))

/-- Strict lexicographic order on dates. -/
def Date.lt (a b : Date) : Prop :=
  a.year < b.year ∨
    (a.year = b.year ∧
      (a.month < b.month ∨ (a.month = b.month ∧ a.day < b.day)))

instance : LE Date := ⟨Date.le⟩

instance : LT Date := ⟨Date.lt⟩

instance Date.decLe : (a b : Date) → Decidable (a ≤ b) := fun a b =>
  decidable_of_iff
    (a.year < b.year ∨
      (a.year = b.year ∧
        (a.month < b.month ∨ (a.month = b.month ∧ a.day ≤ b.day)))) Iff.rfl

instance Date.decLt : (a b : Date) → Decidable (a < b) := fun a b =>
  decidable_of_iff
    (a.year < b.year ∨
      (a.year = b.year ∧
        (a.month < b.month ∨ (a.month = b.month ∧ a.day < b.day)))) Iff.rfl

theorem Date.le_refl (a : Date) : a ≤ a := by
  show Date.le a a; unfold Date.le; omega

theorem Date.le_trans {a b c : Date} (h1 : a ≤ b) (h2 : b ≤ c) : a ≤ c := by
  revert h1 h2; show Date.le a b → Date.le b c → Date.le a c
  unfold Date.le; omega

theorem Date.le_total (a b : Date) : a ≤ b ∨ b ≤ a := by
  show Date.le a b ∨ Date.le b a; unfold Date.le; omega

theorem Date.lt_of_le_of_ne {a b : Date} (h1 : a ≤ b) (h2 : a ≠ b) : a < b := by
  rcases a with ⟨ay, am, ad⟩; rcases b with ⟨by_, bm, bd⟩
  have h2' : ¬(ay = by_ ∧ am = bm ∧ ad = bd) := by
    intro ⟨e1, e2, e3⟩; exact h2 (by rw [e1, e2, e3])
  revert h1; show Date.le _ _ → Date.lt _ _
  unfold Date.le Date.lt
  dsimp only
  omega

theorem Date.le_antisymm {a b : Date} (h1 : a ≤ b) (h2 : b ≤ a) : a = b := by
  rcases a with ⟨ay, am, ad⟩; rcases b with ⟨by_, bm, bd⟩
  revert h1 h2; show Date.le _ _ → Date.le _ _ → _
  unfold Date.le
  dsimp only
  intro h1 h2
  simp only [Date.mk.injEq]
  omega

instance : IsTotal Date (· ≤ ·) := ⟨Date.le_total⟩

instance : IsTrans Date (· ≤ ·) := ⟨fun _ _ _ => Date.le_trans⟩

/-- Month bucket of a date, counted in months since year 0: the key used by
the calendar-month resampling (`resample('M', on='date')`, line 42). -/
def monthIdx (d : Date) : Nat := d.year * 12 + (d.month - 1)

/-- Date fields as actually produced by a successful
`pd.to_datetime`: month within 1..12 and day within 1..31. -/
def ValidDate (d : Date) : Prop :=
  1 ≤ d.month ∧ d.month ≤ 12 ∧ 1 ≤ d.day ∧ d.day ≤ 31

instance : DecidablePred ValidDate := fun d =>
  decidable_of_iff (1 ≤ d.month ∧ d.month ≤ 12 ∧ 1 ≤ d.day ∧ d.day ≤ 31) Iff.rfl

theorem monthIdx_mono {a b : Date} (ha : ValidDate a) (hb : ValidDate b)
    (h : a ≤ b) : monthIdx a ≤ monthIdx b := by
  revert h; show Date.le a b → _
  unfold Date.le monthIdx
  rcases ha with ⟨h1, h2, h3, h4⟩
  rcases hb with ⟨h5, h6, h7, h8⟩
  omega

/-- Smaller of two dates (used to model the minimum of a date column). -/
def dateMin (a b : Date) : Date := if a ≤ b then a else b

/-- Larger of two dates (used to model the maximum of a date column). -/
def dateMax (a b : Date) : Date := if b ≤ a then a else b

/-! ### Strings and parsing

`pd.to_datetime` and Python's `str.split` are modelled on the character
lists of the strings involved. -/

/-- Split a character list at every occurrence of the separator `c`; the
semantics of Python's `str.split(sep)` (never returns an empty list). -/
def splitOnChar (c : Char) : List Char → List (List Char)
  | [] => [[]]
  | a :: as =>
    match splitOnChar c as with
    | [] => if a = c then [[], []] else [[a]]
    | g :: gs => if a = c then [] :: g :: gs else (a :: g) :: gs

/-- Value of a decimal digit character, `none` for a non-digit. -/
def digitVal (c : Char) : Option Nat :=
  if '0' ≤ c ∧ c ≤ '9' then some (c.toNat - '0'.toNat) else none

/-- Parse a non-empty all-digit character list as a natural number. -/
def charsToNat : List Char → Option Nat
  | [] => none
  | l => l.foldl (fun acc c => acc.bind fun n => (digitVal c).map fun d => n * 10 + d) (some 0)

/-- Python `x.split(' ')[0]`: the part of the string before the first
space (line 12). -/
def firstToken (s : String) : String :=
  match splitOnChar ' ' s.data with
  | [] => s
  | g :: _ => ⟨g⟩

/-- Pandas `astype(str)` on a cell: a missing value (`NaN`) prints as the
string `nan`, any other cell is its string value (line 12). -/
def astypeStr : Option String → String
  | none => "nan"
  | some s => s

/-- Strings that pandas `to_datetime` silently converts to `NaT` instead
of parsing (pandas' `nat_strings` set). -/
def natStrings : List String := ["", "nan", "NaN", "NAN", "NaT", "nat", "NAT"]

/-- Parse a `YYYY-MM-DD` string as a date.  Model of the accepting case of
`pd.to_datetime` at line 23 (the dashboard's column holds dates in this
format once `remove_time` has stripped the time-of-day); the calendar-day
check is simplified to day within 1..31. -/
def parseYMD (s : String) : Option Date :=
  match splitOnChar '-' s.data with
  | [ys, ms, ds] =>
    match charsToNat ys, charsToNat ms, charsToNat ds with
    | some y, some m, some d =>
      if 1 ≤ m ∧ m ≤ 12 ∧ 1 ≤ d ∧ d ≤ 31 then some ⟨y, m, d⟩ else none
    | _, _, _ => none
  | _ => none

/-- Model of `pd.to_datetime(cell).dt.date` (line 23): `some none` is a
`NaT` result (null-like input string, silently accepted), `some (some d)`
is a parsed date, `none` is a raised parse error. -/
def toDatetimeDate (s : String) : Option (Option Date) :=
  if s ∈ natStrings then some none
  else
    match parseYMD s with
    | some d => some (some d)
    | none => none

/-- Parse a `YYYY-MM` month label back to the first day of the month:
model of `pd.to_datetime` applied to the monthly table's `date` column at
line 167. -/
def parseYM (s : String) : Option Date :=
  match splitOnChar '-' s.data with
  | [ys, ms] =>
    match charsToNat ys, charsToNat ms with
    | some y, some m => if 1 ≤ m ∧ m ≤ 12 then some ⟨y, m, 1⟩ else none
    | _, _ => none
  | _ => none

/-- Zero-pad a number to two digits (month part of `strftime('%Y-%m')`). -/
def pad2 (n : Nat) : String := if n < 10 then "0" ++ toString n else toString n

/-- Zero-pad a number to four digits (year part of `strftime('%Y-%m')`). -/
def pad4 (n : Nat) : String :=
  if n < 10 then "000" ++ toString n
  else if n < 100 then "00" ++ toString n
  else if n < 1000 then "0" ++ toString n
  else toString n

/-- Month label `YYYY-MM` of a month bucket: model of
`strftime('%Y-%m')` at line 47. -/
def monthLabel (i : Nat) : String := pad4 (i / 12) ++ "-" ++ pad2 (i % 12 + 1)

/-! ### Row and table types -/

/-- One raw event row of `missile_attacks_daily.csv`, restricted to the
columns the script touches.  Cells are `Option String` with `none` for a
missing value (`NaN`); `launched` and `destroyed` carry the non-negative
integer counts of the event-record data model. -/
structure RawRow where
  time_start : Option String
  time_end : Option String
  model : Option String
  launch_place : Option String
  target : Option String
  destroyed_details : Option String
  carrier : Option String
  source : Option String
  launched : Nat
  destroyed : Nat
deriving DecidableEq, Repr

/-- Normalized record produced by `process_dataset`: the `date` column
(`none` models a `NaT` cell) plus the two count columns. -/
structure NormRow where
  date : Option Date
  launched : Nat
  destroyed : Nat
deriving DecidableEq, Repr

/-- One row of the daily aggregate table returned by `aggregate_data`:
the index `date`, the two summed counts, and the formatted
`interception_rate` column (a string such as `50%`). -/
structure DailyRow where
  date : Date
  launched : Nat
  destroyed : Nat
  interception_rate : String
deriving DecidableEq, Repr

/-- One row of the monthly table returned by `monthly_interception_rate`:
`date` is the `YYYY-MM` label produced by `strftime` at line 47. -/
structure MonthlyRow where
  date : String
  launched : Nat
  destroyed : Nat
  interception_rate : String
deriving DecidableEq, Repr

/-- Sequence a row-wise fallible computation over a list: the whole result
is `none` as soon as one element fails, the model of a pandas column
operation that raises on some cell. -/
def mapMOpt (f : α → Option β) : List α → Option (List β)
  | [] => some []
  | a :: as =>
    match f a with
    | none => none
    | some b =>
      match mapMOpt f as with
      | none => none
      | some bs => some (b :: bs)

/-! ### Normalizer (lines 10-25) -/

/-- Line 12: `data['time_start'] = data['time_start'].astype(str).apply(lambda x: x.split(' ')[0])`,
then line 13 returns the same (mutated) frame.  The function's value is
also the post-state of the argument, since the column assignment is an
in-place update of the frame that was passed in. -/
def remove_time (data : List RawRow) : List RawRow :=
  data.map fun r => { r with time_start := some (firstToken (astypeStr r.time_start)) }

/-- Lines 15-25: drop the descriptive columns (line 17), rename
`time_start` to `date` (line 20) — both reflected in the `NormRow` shape —
then `pd.to_datetime(data['date']).dt.date` (line 23), which raises (here:
`none`) if any cell fails to parse.  Like `remove_time`, this mutates the
frame passed to it; the returned table is the argument's post-state. -/
def process_dataset (data : List RawRow) : Option (List NormRow) :=
  mapMOpt
    (fun r =>
      (match r.time_start with
        | none => some none
        | some s => toDatetimeDate s).map
        fun d => { date := d, launched := r.launched, destroyed := r.destroyed })
    data

/-- Lines 140-141 of the app body: the composition
`process_dataset(remove_time(data))` applied on each run. -/
def data_processed (data : List RawRow) : Option (List NormRow) :=
  process_dataset (remove_time data)

/-- Pure per-row reading of the whole Normalizer: what one input row
contributes to the normalized table. -/
def normRowOf (r : RawRow) : Option NormRow :=
  (toDatetimeDate (firstToken (astypeStr r.time_start))).map
    fun d => { date := d, launched := r.launched, destroyed := r.destroyed }

/-! ### Rate computation (lines 33-35 and 43-45) -/

/-- Integer value of the `interception_rate` column for one aggregate row:
`(destroyed / launched * 100).fillna(0).round(0).astype(int)`.
`0/0` is `NaN`, turned into `0` by `fillna`; `destroyed/0` with
`destroyed > 0` is `inf`, on which `astype(int)` raises (`none`); otherwise
the exact quotient `destroyed * 100 / launched` is rounded half-to-even
(the rounding of pandas' `round(0)`), written out on the quotient `q` and
remainder `r` of the division: the fractional part `r / launched` is
below, above, or exactly one half according as `2 * r` compares with
`launched`, and a tie goes to the even neighbour. -/
def rateValue (launched destroyed : Nat) : Option Int :=
  if launched = 0 then
    if destroyed = 0 then some 0 else none
  else
    let q := destroyed * 100 / launched
    let r := destroyed * 100 % launched
    some
      (if 2 * r < launched then (q : Int)
       else if launched < 2 * r then (q : Int) + 1
       else if q % 2 = 0 then (q : Int) else (q : Int) + 1)

/-! ### Daily aggregator (lines 27-36) -/

/-- Rows of the normalized table falling on date `k`: one group of
`data.groupby('date')` (line 29).  `groupby` drops rows whose key is
null (`NaT`). -/
def dateGroup (rows : List NormRow) (k : Date) : List NormRow :=
  rows.filter fun r => r.date == some k

/-- Distinct dates of the table in ascending order: the group keys of
`groupby('date')`, which sorts keys. -/
def dailyKeys (rows : List NormRow) : List Date :=
  List.insertionSort (· ≤ ·) (rows.filterMap (fun r => r.date)).dedup

/-- Sum of the `launched` column over the group of date `k` (line 30). -/
def dayLaunched (rows : List NormRow) (k : Date) : Nat :=
  ((dateGroup rows k).map fun r => r.launched).sum

/-- Sum of the `destroyed` column over the group of date `k` (line 31). -/
def dayDestroyed (rows : List NormRow) (k : Date) : Nat :=
  ((dateGroup rows k).map fun r => r.destroyed).sum

/-- The daily aggregate row for date `k`: summed counts (lines 29-32) and
the formatted rate column (lines 33-35); `none` when the rate computation
raises. -/
def dailyRowOf (rows : List NormRow) (k : Date) : Option DailyRow :=
  (rateValue (dayLaunched rows k) (dayDestroyed rows k)).map fun v =>
    { date := k, launched := dayLaunched rows k, destroyed := dayDestroyed rows k,
      interception_rate := toString v ++ "%" }

/-- Lines 27-36: group by date, sum both count columns, append the
interception-rate column. -/
def aggregate_data (rows : List NormRow) : Option (List DailyRow) :=
  mapMOpt (dailyRowOf rows) (dailyKeys rows)

/-! ### Monthly aggregator (lines 38-48) -/

/-- Daily rows falling in month bucket `i`: one calendar-month bin of
`resample('M', on='date')`. -/
def monthGroup (daily : List DailyRow) (i : Nat) : List DailyRow :=
  daily.filter fun r => monthIdx r.date == i

/-- Sum of the `launched` column over month bucket `i` (line 42). -/
def monthLaunched (daily : List DailyRow) (i : Nat) : Nat :=
  ((monthGroup daily i).map fun r => r.launched).sum

/-- Sum of the `destroyed` column over month bucket `i` (line 42). -/
def monthDestroyed (daily : List DailyRow) (i : Nat) : Nat :=
  ((monthGroup daily i).map fun r => r.destroyed).sum

/-- The monthly row for month bucket `i`: counts summed over the bucket
(line 42), rate derived from the monthly sums (lines 44-45), month label
formatted (line 47). -/
def monthlyRowOf (daily : List DailyRow) (i : Nat) : Option MonthlyRow :=
  (rateValue (monthLaunched daily i) (monthDestroyed daily i)).map fun v =>
    { date := monthLabel i, launched := monthLaunched daily i,
      destroyed := monthDestroyed daily i,
      interception_rate := toString v ++ "%" }

/-- First month bucket of the table: `resample` bins from the minimum date. -/
def loIdx (d : DailyRow) (ds : List DailyRow) : Nat :=
  ds.foldl (fun a r => Nat.min a (monthIdx r.date)) (monthIdx d.date)

/-- Last month bucket of the table: `resample` bins up to the maximum date. -/
def hiIdx (d : DailyRow) (ds : List DailyRow) : Nat :=
  ds.foldl (fun a r => Nat.max a (monthIdx r.date)) (monthIdx d.date)

/-- Lines 38-48: resample the daily table to calendar months — one bin per
month from the minimum to the maximum date, gap months included with empty
groups — sum the counts per bin, derive the rate, format the label. -/
def monthly_interception_rate (daily : List DailyRow) : Option (List MonthlyRow) :=
  match daily with
  | [] => some []
  | d :: ds =>
    mapMOpt (monthlyRowOf (d :: ds))
      (List.range' (loIdx d ds) (hiIdx d ds + 1 - loIdx d ds))

/-! ### Range filter (lines 164-168) -/

/-- Line 165: keep the daily rows with `start <= date <= end` (both
comparisons inclusive). -/
def filtered_data (daily : List DailyRow) (startD endD : Date) : List DailyRow :=
  daily.filter fun r => decide (startD ≤ r.date) && decide (r.date ≤ endD)

/-- Lines 167-168: re-parse the monthly `YYYY-MM` labels with
`pd.to_datetime(...).dt.date` (yielding the month-start date) and keep the
rows whose month-start date lies in `[start, end]`.  `to_datetime` raises
(`none`) if some label fails to parse, which never happens on labels the
pipeline itself produced. -/
def filtered_monthly_data (monthly : List MonthlyRow) (startD endD : Date) :
    Option (List MonthlyRow) :=
  if monthly.all fun r => (parseYM r.date).isSome then
    some (monthly.filter fun r =>
      match parseYM r.date with
      | some d => decide (startD ≤ d) && decide (d ≤ endD)
      | none => false)
  else none

/-! ### Basic lemmas about `mapMOpt` -/

theorem mapMOpt_eq_some_map {α β γ : Type} {f : α → Option β} {g : β → γ} {h : α → γ}
    (H : ∀ a b, f a = some b → g b = h a) :
    ∀ {l : List α} {out : List β}, mapMOpt f l = some out → out.map g = l.map h
  | [], out, heq => by
    simp only [mapMOpt, Option.some.injEq] at heq
    subst heq; rfl
  | a :: as, out, heq => by
    cases hfa : f a with
    | none => simp [mapMOpt, hfa] at heq
    | some b =>
      cases hrest : mapMOpt f as with
      | none => simp [mapMOpt, hfa, hrest] at heq
      | some bs =>
        simp only [mapMOpt, hfa, hrest, Option.some.injEq] at heq
        subst heq
        simp [H a b hfa, mapMOpt_eq_some_map H hrest]

theorem mapMOpt_mem {α β : Type} {f : α → Option β} :
    ∀ {l : List α} {out : List β}, mapMOpt f l = some out →
      ∀ (r : β), r ∈ out → ∃ a ∈ l, f a = some r
  | [], out, heq => by
    simp only [mapMOpt, Option.some.injEq] at heq
    subst heq; intro r hr; cases hr
  | a :: as, out, heq => by
    cases hfa : f a with
    | none => simp [mapMOpt, hfa] at heq
    | some b =>
      cases hrest : mapMOpt f as with
      | none => simp [mapMOpt, hfa, hrest] at heq
      | some bs =>
        simp only [mapMOpt, hfa, hrest, Option.some.injEq] at heq
        subst heq
        intro r hr
        rcases List.mem_cons.mp hr with hr | hr
        · exact ⟨a, List.mem_cons_self a as, hr ▸ hfa⟩
        · rcases mapMOpt_mem hrest r hr with ⟨x, hx, hfx⟩
          exact ⟨x, List.mem_cons_of_mem a hx, hfx⟩

theorem mapMOpt_eq_none {α β : Type} {f : α → Option β} {a : α} (ha : f a = none) :
    ∀ {l : List α}, a ∈ l → mapMOpt f l = none := by
  intro l hl
  induction l with
  | nil => cases hl
  | cons x xs ih =>
    rcases List.mem_cons.mp hl with h | h
    · subst h; simp [mapMOpt, ha]
    · cases hfx : f x with
      | none => simp [mapMOpt, hfx]
      | some b => simp [mapMOpt, hfx, ih h]

theorem mapMOpt_map {α β γ : Type} (f : β → Option γ) (g : α → β) :
    ∀ l : List α, mapMOpt f (l.map g) = mapMOpt (fun a => f (g a)) l
  | [] => rfl
  | a :: as => by simp only [List.map_cons, mapMOpt, mapMOpt_map f g as]

theorem map_eq_self_iff {α : Type} {f : α → α} :
    ∀ {l : List α}, l.map f = l ↔ ∀ a ∈ l, f a = a
  | [] => by simp
  | a :: as => by
    simp only [List.map_cons, List.cons.injEq, List.mem_cons]
    constructor
    · rintro ⟨h1, h2⟩ x (rfl | hx)
      · exact h1
      · exact map_eq_self_iff.mp h2 x hx
    · intro h
      exact ⟨h a (Or.inl rfl), map_eq_self_iff.mpr fun x hx => h x (Or.inr hx)⟩

/-! ### Summing over group-by fibers -/

theorem sum_map_ite_eq {κ : Type} [DecidableEq κ] (v : Nat) :
    ∀ {keys : List κ} (k0 : κ), keys.Nodup → k0 ∈ keys →
      (keys.map fun k => if k0 = k then v else 0).sum = v
  | [], k0, _, hmem => by cases hmem
  | k :: ks, k0, hnd, hmem => by
    rcases List.nodup_cons.mp hnd with ⟨hk, hnd'⟩
    rcases List.mem_cons.mp hmem with rfl | hmem'
    · simp only [List.map_cons, List.sum_cons, if_pos rfl]
      have hz : (ks.map fun k' => if k0 = k' then v else 0).sum = 0 :=
        List.sum_eq_zero fun x hx => by
          rcases List.mem_map.mp hx with ⟨k', hk', rfl⟩
          have : k0 ≠ k' := fun e => hk (e ▸ hk')
          simp [this]
      simp [hz]
    · have hne : k0 ≠ k := fun e => hk (e ▸ hmem')
      simp only [List.map_cons, List.sum_cons, if_neg hne]
      simp [sum_map_ite_eq v k0 hnd' hmem']

theorem sum_fibers {α κ : Type} [DecidableEq κ] (key : α → Option κ) (f : α → Nat) :
    ∀ (rows : List α) {keys : List κ}, keys.Nodup →
      (∀ r ∈ rows, ∀ k, key r = some k → k ∈ keys) →
      (keys.map fun k => ((rows.filter fun r => key r == some k).map f).sum).sum
        = ((rows.filter fun r => (key r).isSome).map f).sum
  | [], keys, hnd, hcov => by simp
  | r :: rows, keys, hnd, hcov => by
    have ih := sum_fibers key f rows hnd fun x hx => hcov x (List.mem_cons_of_mem _ hx)
    cases hkr : key r with
    | none =>
      simp only [List.filter_cons, hkr, Option.none_beq_some, Bool.false_eq_true,
        if_false, Option.isSome_none]
      exact ih
    | some k0 =>
      have hsplit : ∀ (c : Bool) (l : List α),
          ((if c = true then r :: l else l).map f).sum = (if c = true then f r else 0) + (l.map f).sum := by
        intro c l; cases c <;> simp
      simp only [List.filter_cons, hkr, Option.some_beq_some, Option.isSome_some,
        if_true, hsplit, List.sum_map_add, List.map_cons, List.sum_cons]
      have hone : (keys.map fun k => if (k0 == k) = true then f r else 0).sum = f r := by
        have : (keys.map fun k => if (k0 == k) = true then f r else 0)
            = keys.map fun k => if k0 = k then f r else 0 := by
          apply List.map_congr_left
          intro k _
          by_cases h : k0 = k <;> simp [h]
        rw [this]
        exact sum_map_ite_eq (f r) k0 hnd (hcov r (List.mem_cons_self r rows) k0 hkr)
      rw [hone, ih]

/-! ### Facts about the rate computation -/

theorem rateValue_pos_spec {l d : Nat} (hl : l ≠ 0) {n : Int}
    (h : rateValue l d = some n) :
    (2 * (d * 100 % l) ≤ l ∧ n = ((d * 100 / l : Nat) : Int)) ∨
      (l ≤ 2 * (d * 100 % l) ∧ n = ((d * 100 / l : Nat) : Int) + 1) := by
  unfold rateValue at h
  rw [if_neg hl] at h
  simp only [Option.some.injEq] at h
  rcases Nat.lt_trichotomy (2 * (d * 100 % l)) l with hc | hc | hc
  · rw [if_pos hc] at h
    exact Or.inl ⟨Nat.le_of_lt hc, h.symm⟩
  · rw [if_neg (by omega), if_neg (by omega)] at h
    by_cases hq : d * 100 / l % 2 = 0
    · rw [if_pos hq] at h
      exact Or.inl ⟨Nat.le_of_eq hc, h.symm⟩
    · rw [if_neg hq] at h
      exact Or.inr ⟨Nat.le_of_eq hc.symm, h.symm⟩
  · rw [if_neg (by omega), if_pos hc] at h
    exact Or.inr ⟨Nat.le_of_lt hc, h.symm⟩

theorem rateValue_launched_zero {d : Nat} {n : Int} (h : rateValue 0 d = some n) :
    d = 0 ∧ n = 0 := by
  unfold rateValue at h
  rw [if_pos rfl] at h
  by_cases hd : d = 0
  · rw [if_pos hd] at h
    simp only [Option.some.injEq] at h
    exact ⟨hd, h.symm⟩
  · rw [if_neg hd] at h
    cases h

theorem rateValue_nonneg {l d : Nat} {n : Int} (h : rateValue l d = some n) : 0 ≤ n := by
  by_cases hl : l = 0
  · subst hl
    rw [(rateValue_launched_zero h).2]
  · rcases rateValue_pos_spec hl h with ⟨_, rfl⟩ | ⟨_, rfl⟩ <;> positivity

theorem rateValue_isSome_of_pos {l d : Nat} (hl : l ≠ 0) : ∃ n, rateValue l d = some n := by
  unfold rateValue
  rw [if_neg hl]
  exact ⟨_, rfl⟩

theorem rateValue_nearest {l d : Nat} {n : Int} (hl : l ≠ 0)
    (h : rateValue l d = some n) :
    |(d : Rat) / (l : Rat) * 100 - (n : Rat)| ≤ 1 / 2 := by
  have hl0 : (0 : Rat) < (l : Rat) := by exact_mod_cast Nat.pos_of_ne_zero hl
  obtain ⟨Q, M, hQM, hMl, hcase⟩ :
      ∃ Q M, d * 100 = l * Q + M ∧ M < l ∧
        ((2 * M ≤ l ∧ n = (Q : Int)) ∨ (l ≤ 2 * M ∧ n = (Q : Int) + 1)) := by
    rcases rateValue_pos_spec hl h with ⟨hc, hn⟩ | ⟨hc, hn⟩
    · exact ⟨d * 100 / l, d * 100 % l, (Nat.div_add_mod _ _).symm,
        Nat.mod_lt _ (Nat.pos_of_ne_zero hl), Or.inl ⟨hc, hn⟩⟩
    · exact ⟨d * 100 / l, d * 100 % l, (Nat.div_add_mod _ _).symm,
        Nat.mod_lt _ (Nat.pos_of_ne_zero hl), Or.inr ⟨hc, hn⟩⟩
  have key : ((d : Int) * 100) = (l : Int) * (Q : Int) + (M : Int) := by exact_mod_cast hQM
  have hM0 : (0 : Int) ≤ (M : Int) := Int.natCast_nonneg _
  have hint : 2 * ((d : Int) * 100 - n * l) ≤ l ∧ -(l : Int) ≤ 2 * ((d : Int) * 100 - n * l) := by
    rcases hcase with ⟨hc, rfl⟩ | ⟨hc, rfl⟩ <;>
      · have hc' : (2 * (M : Int) ≤ l) ∨ ((l : Int) ≤ 2 * M) := by
          first
            | exact Or.inl (by exact_mod_cast hc)
            | exact Or.inr (by exact_mod_cast hc)
        have hl0' : (0 : Int) ≤ (l : Int) := Int.natCast_nonneg _
        have hMl' : (M : Int) < (l : Int) := by exact_mod_cast hMl
        rcases hc' with hc' | hc' <;> constructor <;> nlinarith [key, hM0, hl0', hMl']
  have hX : (d : Rat) / (l : Rat) * 100 - (n : Rat)
      = (((d : Int) * 100 - n * l : Int) : Rat) / (l : Rat) := by
    field_simp
    ring
  rw [hX, abs_div, abs_of_pos hl0, div_le_iff₀ hl0]
  have hint1 : 2 * ((d : Rat) * 100 - (n : Rat) * (l : Rat)) ≤ (l : Rat) := by
    exact_mod_cast hint.1
  have hint2 : -(l : Rat) ≤ 2 * ((d : Rat) * 100 - (n : Rat) * (l : Rat)) := by
    exact_mod_cast hint.2
  rcases abs_cases (((d : Int) * 100 - n * l : Int) : Rat) with ⟨he, _⟩ | ⟨he, _⟩ <;>
    rw [he] <;>
    · push_cast
      linarith [hint1, hint2]

/-! ### Facts about the daily group keys -/

theorem dailyKeys_nodup (rows : List NormRow) : (dailyKeys rows).Nodup :=
  (List.perm_insertionSort _ _).nodup_iff.mpr (List.nodup_dedup _)

theorem mem_dailyKeys {rows : List NormRow} {k : Date} :
    k ∈ dailyKeys rows ↔ ∃ r ∈ rows, r.date = some k := by
  unfold dailyKeys
  rw [(List.perm_insertionSort _ _).mem_iff, List.mem_dedup, List.mem_filterMap]

theorem dailyKeys_sorted (rows : List NormRow) :
    (dailyKeys rows).Pairwise (· < ·) := by
  have hs : (dailyKeys rows).Pairwise (· ≤ ·) := List.sorted_insertionSort _ _
  have hn : (dailyKeys rows).Pairwise (· ≠ ·) := dailyKeys_nodup rows
  exact (hs.and hn).imp fun h => Date.lt_of_le_of_ne h.1 h.2

/-! ### Shape of the rows built by the two aggregators -/

theorem dailyRowOf_eq_some {rows : List NormRow} {k : Date} {row : DailyRow} :
    dailyRowOf rows k = some row ↔
      ∃ v, rateValue (dayLaunched rows k) (dayDestroyed rows k) = some v ∧
        row = { date := k, launched := dayLaunched rows k,
                destroyed := dayDestroyed rows k,
                interception_rate := toString v ++ "%" } := by
  unfold dailyRowOf
  cases h : rateValue (dayLaunched rows k) (dayDestroyed rows k) with
  | none => simp [h]
  | some v => simp [h, eq_comm]

theorem monthlyRowOf_eq_some {daily : List DailyRow} {i : Nat} {row : MonthlyRow} :
    monthlyRowOf daily i = some row ↔
      ∃ v, rateValue (monthLaunched daily i) (monthDestroyed daily i) = some v ∧
        row = { date := monthLabel i, launched := monthLaunched daily i,
                destroyed := monthDestroyed daily i,
                interception_rate := toString v ++ "%" } := by
  unfold monthlyRowOf
  cases h : rateValue (monthLaunched daily i) (monthDestroyed daily i) with
  | none => simp [h]
  | some v => simp [h, eq_comm]

/-! ### Bounds for the folds computing the month-bucket span -/

theorem foldl_min_le_init (g : DailyRow → Nat) :
    ∀ (l : List DailyRow) (i : Nat), l.foldl (fun a r => Nat.min a (g r)) i ≤ i
  | [], i => Nat.le_refl i
  | r :: rs, i =>
    Nat.le_trans (foldl_min_le_init g rs (Nat.min i (g r))) (Nat.min_le_left _ _)

theorem foldl_min_le_mem (g : DailyRow → Nat) :
    ∀ {l : List DailyRow} (i : Nat) {r : DailyRow}, r ∈ l →
      l.foldl (fun a r => Nat.min a (g r)) i ≤ g r := by
  intro l
  induction l with
  | nil => intro i r hr; cases hr
  | cons x xs ih =>
    intro i r hr
    rcases List.mem_cons.mp hr with rfl | hx
    · exact Nat.le_trans (foldl_min_le_init g xs (Nat.min i (g r))) (Nat.min_le_right _ _)
    · exact ih _ hx

theorem le_foldl_min (g : DailyRow → Nat) :
    ∀ {l : List DailyRow} {i x : Nat}, x ≤ i → (∀ r ∈ l, x ≤ g r) →
      x ≤ l.foldl (fun a r => Nat.min a (g r)) i := by
  intro l
  induction l with
  | nil => intro i x hi _; exact hi
  | cons r rs ih =>
    intro i x hi hmem
    exact ih (Nat.le_min.mpr ⟨hi, hmem r (List.mem_cons_self r rs)⟩)
      fun r' hr' => hmem r' (List.mem_cons_of_mem r hr')

theorem foldl_max_ge_init (g : DailyRow → Nat) :
    ∀ (l : List DailyRow) (i : Nat), i ≤ l.foldl (fun a r => Nat.max a (g r)) i
  | [], i => Nat.le_refl i
  | r :: rs, i =>
    Nat.le_trans (Nat.le_max_left _ _) (foldl_max_ge_init g rs (Nat.max i (g r)))

theorem foldl_max_ge_mem (g : DailyRow → Nat) :
    ∀ {l : List DailyRow} (i : Nat) {r : DailyRow}, r ∈ l →
      g r ≤ l.foldl (fun a r => Nat.max a (g r)) i := by
  intro l
  induction l with
  | nil => intro i r hr; cases hr
  | cons x xs ih =>
    intro i r hr
    rcases List.mem_cons.mp hr with rfl | hx
    · exact Nat.le_trans (Nat.le_max_right _ _) (foldl_max_ge_init g xs (Nat.max i (g r)))
    · exact ih _ hx

theorem foldl_max_le (g : DailyRow → Nat) :
    ∀ {l : List DailyRow} {i x : Nat}, i ≤ x → (∀ r ∈ l, g r ≤ x) →
      l.foldl (fun a r => Nat.max a (g r)) i ≤ x := by
  intro l
  induction l with
  | nil => intro i x hi _; exact hi
  | cons r rs ih =>
    intro i x hi hmem
    exact ih (Nat.max_le.mpr ⟨hi, hmem r (List.mem_cons_self r rs)⟩)
      fun r' hr' => hmem r' (List.mem_cons_of_mem r hr')

theorem loIdx_le (d : DailyRow) (ds : List DailyRow) {r : DailyRow}
    (hr : r ∈ d :: ds) : loIdx d ds ≤ monthIdx r.date := by
  rcases List.mem_cons.mp hr with rfl | hx
  · exact foldl_min_le_init _ ds (monthIdx r.date)
  · exact foldl_min_le_mem _ _ hx

theorem le_hiIdx (d : DailyRow) (ds : List DailyRow) {r : DailyRow}
    (hr : r ∈ d :: ds) : monthIdx r.date ≤ hiIdx d ds := by
  unfold hiIdx
  rcases List.mem_cons.mp hr with rfl | hx
  · exact foldl_max_ge_init (fun r => monthIdx r.date) ds (monthIdx r.date)
  · exact foldl_max_ge_mem (fun r => monthIdx r.date) _ hx

theorem le_loIdx {d : DailyRow} {ds : List DailyRow} {x : Nat}
    (hall : ∀ r ∈ d :: ds, x ≤ monthIdx r.date) : x ≤ loIdx d ds :=
  le_foldl_min _ (hall d (List.mem_cons_self d ds))
    fun r hr => hall r (List.mem_cons_of_mem d hr)

theorem hiIdx_le {d : DailyRow} {ds : List DailyRow} {x : Nat}
    (hall : ∀ r ∈ d :: ds, monthIdx r.date ≤ x) : hiIdx d ds ≤ x :=
  foldl_max_le _ (hall d (List.mem_cons_self d ds))
    fun r hr => hall r (List.mem_cons_of_mem d hr)

/-! ### Minimum and maximum of the date column -/

theorem Date.le_of_not_le {a b : Date} (h : ¬ a ≤ b) : b ≤ a :=
  (Date.le_total a b).resolve_left h

theorem Date.not_le_of_gt {a b : Date} (h : b < a) : ¬ a ≤ b := by
  revert h; show Date.lt b a → ¬ Date.le a b
  unfold Date.lt Date.le; omega

theorem dateMin_le_left (a b : Date) : dateMin a b ≤ a := by
  unfold dateMin; split
  · exact Date.le_refl a
  · exact Date.le_of_not_le (by assumption)

theorem dateMin_le_right (a b : Date) : dateMin a b ≤ b := by
  unfold dateMin; split
  · assumption
  · exact Date.le_refl b

theorem dateMin_eq_or (a b : Date) : dateMin a b = a ∨ dateMin a b = b := by
  unfold dateMin; split
  · exact Or.inl rfl
  · exact Or.inr rfl

theorem le_dateMax_left (a b : Date) : a ≤ dateMax a b := by
  unfold dateMax; split
  · exact Date.le_refl a
  · exact Date.le_of_not_le (by assumption)

theorem le_dateMax_right (a b : Date) : b ≤ dateMax a b := by
  unfold dateMax; split
  · assumption
  · exact Date.le_refl b

theorem dateMax_eq_or (a b : Date) : dateMax a b = a ∨ dateMax a b = b := by
  unfold dateMax; split
  · exact Or.inl rfl
  · exact Or.inr rfl

/-- Minimum of the `date` column of a non-empty daily table (`resample`
bins start at the month of this date). -/
def minDate (d : DailyRow) (ds : List DailyRow) : Date :=
  ds.foldl (fun a r => dateMin a r.date) d.date

/-- Maximum of the `date` column of a non-empty daily table (`resample`
bins end at the month of this date). -/
def maxDate (d : DailyRow) (ds : List DailyRow) : Date :=
  ds.foldl (fun a r => dateMax a r.date) d.date

theorem foldl_dateMin_le_init :
    ∀ (ds : List DailyRow) (i : Date), ds.foldl (fun a r => dateMin a r.date) i ≤ i
  | [], i => Date.le_refl i
  | r :: rs, i =>
    Date.le_trans (foldl_dateMin_le_init rs (dateMin i r.date)) (dateMin_le_left _ _)

theorem foldl_dateMin_le_mem :
    ∀ {ds : List DailyRow} (i : Date) {r : DailyRow}, r ∈ ds →
      ds.foldl (fun a r => dateMin a r.date) i ≤ r.date := by
  intro ds
  induction ds with
  | nil => intro i r hr; cases hr
  | cons x xs ih =>
    intro i r hr
    rcases List.mem_cons.mp hr with rfl | hx
    · exact Date.le_trans (foldl_dateMin_le_init xs (dateMin i r.date)) (dateMin_le_right _ _)
    · exact ih _ hx

theorem foldl_dateMin_mem :
    ∀ (ds : List DailyRow) (i : Date),
      ds.foldl (fun a r => dateMin a r.date) i = i ∨
        ∃ r ∈ ds, ds.foldl (fun a r => dateMin a r.date) i = r.date
  | [], i => Or.inl rfl
  | x :: xs, i => by
    rcases foldl_dateMin_mem xs (dateMin i x.date) with h | ⟨r, hr, h⟩
    · rcases dateMin_eq_or i x.date with he | he
      · exact Or.inl (by rw [List.foldl_cons, h, he])
      · exact Or.inr ⟨x, List.mem_cons_self x xs, by rw [List.foldl_cons, h, he]⟩
    · exact Or.inr ⟨r, List.mem_cons_of_mem x hr, by rw [List.foldl_cons]; exact h⟩

theorem foldl_dateMax_ge_init :
    ∀ (ds : List DailyRow) (i : Date), i ≤ ds.foldl (fun a r => dateMax a r.date) i
  | [], i => Date.le_refl i
  | r :: rs, i =>
    Date.le_trans (le_dateMax_left _ _) (foldl_dateMax_ge_init rs (dateMax i r.date))

theorem foldl_dateMax_ge_mem :
    ∀ {ds : List DailyRow} (i : Date) {r : DailyRow}, r ∈ ds →
      r.date ≤ ds.foldl (fun a r => dateMax a r.date) i := by
  intro ds
  induction ds with
  | nil => intro i r hr; cases hr
  | cons x xs ih =>
    intro i r hr
    rcases List.mem_cons.mp hr with rfl | hx
    · exact Date.le_trans (le_dateMax_right _ _) (foldl_dateMax_ge_init xs (dateMax i r.date))
    · exact ih _ hx

theorem foldl_dateMax_mem :
    ∀ (ds : List DailyRow) (i : Date),
      ds.foldl (fun a r => dateMax a r.date) i = i ∨
        ∃ r ∈ ds, ds.foldl (fun a r => dateMax a r.date) i = r.date
  | [], i => Or.inl rfl
  | x :: xs, i => by
    rcases foldl_dateMax_mem xs (dateMax i x.date) with h | ⟨r, hr, h⟩
    · rcases dateMax_eq_or i x.date with he | he
      · exact Or.inl (by rw [List.foldl_cons, h, he])
      · exact Or.inr ⟨x, List.mem_cons_self x xs, by rw [List.foldl_cons, h, he]⟩
    · exact Or.inr ⟨r, List.mem_cons_of_mem x hr, by rw [List.foldl_cons]; exact h⟩

theorem minDate_le (d : DailyRow) (ds : List DailyRow) {r : DailyRow}
    (hr : r ∈ d :: ds) : minDate d ds ≤ r.date := by
  unfold minDate
  rcases List.mem_cons.mp hr with rfl | hx
  · exact foldl_dateMin_le_init ds r.date
  · exact foldl_dateMin_le_mem _ hx

theorem minDate_mem (d : DailyRow) (ds : List DailyRow) :
    ∃ r ∈ d :: ds, r.date = minDate d ds := by
  unfold minDate
  rcases foldl_dateMin_mem ds d.date with h | ⟨r, hr, h⟩
  · exact ⟨d, List.mem_cons_self d ds, h.symm⟩
  · exact ⟨r, List.mem_cons_of_mem d hr, h.symm⟩

theorem le_maxDate (d : DailyRow) (ds : List DailyRow) {r : DailyRow}
    (hr : r ∈ d :: ds) : r.date ≤ maxDate d ds := by
  unfold maxDate
  rcases List.mem_cons.mp hr with rfl | hx
  · exact foldl_dateMax_ge_init ds r.date
  · exact foldl_dateMax_ge_mem _ hx

theorem maxDate_mem (d : DailyRow) (ds : List DailyRow) :
    ∃ r ∈ d :: ds, r.date = maxDate d ds := by
  unfold maxDate
  rcases foldl_dateMax_mem ds d.date with h | ⟨r, hr, h⟩
  · exact ⟨d, List.mem_cons_self d ds, h.symm⟩
  · exact ⟨r, List.mem_cons_of_mem d hr, h.symm⟩

theorem loIdx_eq_minDate (d : DailyRow) (ds : List DailyRow)
    (hv : ∀ r ∈ d :: ds, ValidDate r.date) :
    loIdx d ds = monthIdx (minDate d ds) := by
  obtain ⟨r0, hr0, he⟩ := minDate_mem d ds
  refine Nat.le_antisymm ?_ ?_
  · calc loIdx d ds ≤ monthIdx r0.date := loIdx_le d ds hr0
      _ = monthIdx (minDate d ds) := by rw [he]
  · refine le_loIdx fun r hr => ?_
    refine monthIdx_mono ?_ (hv r hr) (minDate_le d ds hr)
    rw [← he]; exact hv r0 hr0

theorem hiIdx_eq_maxDate (d : DailyRow) (ds : List DailyRow)
    (hv : ∀ r ∈ d :: ds, ValidDate r.date) :
    hiIdx d ds = monthIdx (maxDate d ds) := by
  obtain ⟨r0, hr0, he⟩ := maxDate_mem d ds
  refine Nat.le_antisymm ?_ ?_
  · refine hiIdx_le fun r hr => ?_
    refine monthIdx_mono (hv r hr) ?_ (le_maxDate d ds hr)
    rw [← he]; exact hv r0 hr0
  · calc monthIdx (maxDate d ds) = monthIdx r0.date := by rw [he]
      _ ≤ hiIdx d ds := le_hiIdx d ds hr0

/-! ### The Normalizer as a pure per-row function -/

theorem data_processed_eq (data : List RawRow) :
    data_processed data = mapMOpt normRowOf data := by
  unfold data_processed process_dataset remove_time
  rw [mapMOpt_map]
  rfl

theorem rawRow_set_time_start_eq {r : RawRow} {t : Option String} :
    ({ r with time_start := t } : RawRow) = r ↔ t = r.time_start := by
  constructor
  · intro h
    exact congrArg RawRow.time_start h
  · intro h
    subst h
    rfl

theorem remove_time_eq_self_iff {data : List RawRow} :
    remove_time data = data ↔
      ∀ r ∈ data, r.time_start = some (firstToken (astypeStr r.time_start)) := by
  unfold remove_time
  rw [map_eq_self_iff]
  constructor
  · intro h r hr
    exact (rawRow_set_time_start_eq.mp (h r hr)).symm
  · intro h r hr
    exact rawRow_set_time_start_eq.mpr (h r hr).symm

/-! ### The scenario table of the specification -/

/-- The three raw event rows of the specification scenario. -/
def scenarioRaw : List RawRow :=
  [{ time_start := some "2022-02-24", time_end := none, model := none,
     launch_place := none, target := none, destroyed_details := none,
     carrier := none, source := none, launched := 5, destroyed := 1 },
   { time_start := some "2022-02-24", time_end := none, model := none,
     launch_place := none, target := none, destroyed_details := none,
     carrier := none, source := none, launched := 3, destroyed := 3 },
   { time_start := some "2022-03-01", time_end := none, model := none,
     launch_place := none, target := none, destroyed_details := none,
     carrier := none, source := none, launched := 0, destroyed := 0 }]

/-- The scenario rows after normalization. -/
def scenarioNorm : List NormRow :=
  [{ date := some ⟨2022, 2, 24⟩, launched := 5, destroyed := 1 },
   { date := some ⟨2022, 2, 24⟩, launched := 3, destroyed := 3 },
   { date := some ⟨2022, 3, 1⟩, launched := 0, destroyed := 0 }]

/-- The scenario's daily aggregate table. -/
def scenarioDaily : List DailyRow :=
  [{ date := ⟨2022, 2, 24⟩, launched := 8, destroyed := 4, interception_rate := "50%" },
   { date := ⟨2022, 3, 1⟩, launched := 0, destroyed := 0, interception_rate := "0%" }]

/-- The scenario's monthly aggregate table. -/
def scenarioMonthly : List MonthlyRow :=
  [{ date := "2022-02", launched := 8, destroyed := 4, interception_rate := "50%" },
   { date := "2022-03", launched := 0, destroyed := 0, interception_rate := "0%" }]

/-! ### Rows of the aggregate tables carry a formatted rate -/

theorem aggregate_data_mem {rows : List NormRow} {out : List DailyRow} {r : DailyRow}
    (h : aggregate_data rows = some out) (hr : r ∈ out) :
    ∃ n : Int, rateValue r.launched r.destroyed = some n ∧
      r.interception_rate = toString n ++ "%" := by
  obtain ⟨k, _, hrow⟩ := mapMOpt_mem h r hr
  obtain ⟨v, hv, rfl⟩ := dailyRowOf_eq_some.mp hrow
  exact ⟨v, hv, rfl⟩

theorem monthly_rate_mem {daily : List DailyRow} {ms : List MonthlyRow} {r : MonthlyRow}
    (h : monthly_interception_rate daily = some ms) (hr : r ∈ ms) :
    ∃ n : Int, rateValue r.launched r.destroyed = some n ∧
      r.interception_rate = toString n ++ "%" := by
  cases daily with
  | nil =>
    unfold monthly_interception_rate at h
    simp only [Option.some.injEq] at h
    subst h
    cases hr
  | cons d ds =>
    unfold monthly_interception_rate at h
    obtain ⟨i, _, hrow⟩ := mapMOpt_mem h r hr
    obtain ⟨v, hv, rfl⟩ := monthlyRowOf_eq_some.mp hrow
    exact ⟨v, hv, rfl⟩

/-! ### Claim theorems -/

/-- C5: on the scenario input — events (2022-02-24, launched 5, destroyed 1),
(2022-02-24, 3, 3) and (2022-03-01, 0, 0) — the normalizer, the daily
aggregator and the monthly aggregator produce exactly the tables stated by
the specification: daily rows (2022-02-24, 8, 4, rate 50) and
(2022-03-01, 0, 0, rate 0), monthly rows (2022-02, 8, 4, rate 50) and
(2022-03, 0, 0, rate 0); the rate cells carry the formatted strings of
those values. -/
theorem claim_C5_scenario :
    data_processed scenarioRaw = some scenarioNorm
    ∧ aggregate_data scenarioNorm = some scenarioDaily
    ∧ monthly_interception_rate scenarioDaily = some scenarioMonthly := by
  refine ⟨?_, ?_, ?_⟩ <;> decide

/-- C10: in both aggregate tables the `interception_rate` cell of every
row is not a number but a string: the decimal digits of an integer `n`
with a percent sign appended, where `n` is the exact percentage
`destroyed / launched * 100` of that row rounded to the nearest integer
(within one half, pandas' round-half-to-even), and `n = 0` for a
zero-launch row. -/
theorem claim_C10_rate_is_formatted_string :
    (∀ (rows : List NormRow) (out : List DailyRow) (r : DailyRow),
        aggregate_data rows = some out → r ∈ out →
          ∃ n : Int, rateValue r.launched r.destroyed = some n ∧
            r.interception_rate = toString n ++ "%" ∧
            (r.launched ≠ 0 →
              |(r.destroyed : Rat) / (r.launched : Rat) * 100 - (n : Rat)| ≤ 1 / 2) ∧
            (r.launched = 0 → n = 0))
    ∧ (∀ (daily : List DailyRow) (ms : List MonthlyRow) (r : MonthlyRow),
        monthly_interception_rate daily = some ms → r ∈ ms →
          ∃ n : Int, rateValue r.launched r.destroyed = some n ∧
            r.interception_rate = toString n ++ "%" ∧
            (r.launched ≠ 0 →
              |(r.destroyed : Rat) / (r.launched : Rat) * 100 - (n : Rat)| ≤ 1 / 2) ∧
            (r.launched = 0 → n = 0)) := by
  constructor
  · intro rows out r h hr
    obtain ⟨n, hn, hs⟩ := aggregate_data_mem h hr
    exact ⟨n, hn, hs, fun hl => rateValue_nearest hl hn,
      fun hl => ((rateValue_launched_zero (hl ▸ hn)).2)⟩
  · intro daily ms r h hr
    obtain ⟨n, hn, hs⟩ := monthly_rate_mem h hr
    exact ⟨n, hn, hs, fun hl => rateValue_nearest hl hn,
      fun hl => ((rateValue_launched_zero (hl ▸ hn)).2)⟩

/-- Witness for C10: the theorem applied to the concrete scenario tables,
at the daily row of 2022-02-24 and the monthly row of 2022-02. -/
theorem claim_C10_witness :
    (∃ n : Int, rateValue 8 4 = some n ∧
        "50%" = toString n ++ "%" ∧
        ((8 : Nat) ≠ 0 → |(4 : Rat) / (8 : Rat) * 100 - (n : Rat)| ≤ 1 / 2) ∧
        ((8 : Nat) = 0 → n = 0))
    ∧ (∃ n : Int, rateValue 0 0 = some n ∧
        "0%" = toString n ++ "%" ∧
        ((0 : Nat) ≠ 0 → |(0 : Rat) / (0 : Rat) * 100 - (n : Rat)| ≤ 1 / 2) ∧
        ((0 : Nat) = 0 → n = 0)) :=
  ⟨claim_C10_rate_is_formatted_string.1 scenarioNorm scenarioDaily
      { date := ⟨2022, 2, 24⟩, launched := 8, destroyed := 4, interception_rate := "50%" }
      (by decide) (by decide),
   claim_C10_rate_is_formatted_string.2 scenarioDaily scenarioMonthly
      { date := "2022-03", launched := 0, destroyed := 0, interception_rate := "0%" }
      (by decide) (by decide)⟩

/-- C1, counterexample: the division-by-zero case is not always "defined
to yield 0" — it is an error whenever the zero-launch date has a non-zero
destroyed total.  On the single normalized event (2022-02-24, launched 0,
destroyed 1) the rate column is `1/0 = inf`, `fillna(0)` leaves `inf` in
place, and `astype(int)` raises: the daily aggregation fails instead of
producing a rate-0 row. -/
theorem claim_C1_counterexample :
    aggregate_data [{ date := some ⟨2022, 2, 24⟩, launched := 0, destroyed := 1 }] = none := by
  decide

/-- C1, amended: every row either aggregate actually produces has a
non-negative rate value, and a produced row with `launched_total = 0` has
rate 0 (cell `0%`); but division by zero is only defined to yield 0 in the
`0/0` case — when a group has `launched_total = 0` and a non-zero
`destroyed_total`, the daily aggregation raises instead of producing the
row. -/
theorem claim_C1_amended :
    (∀ (rows : List NormRow) (out : List DailyRow) (r : DailyRow),
        aggregate_data rows = some out → r ∈ out →
          ∃ n : Int, rateValue r.launched r.destroyed = some n ∧ 0 ≤ n ∧
            (r.launched = 0 → n = 0 ∧ r.interception_rate = "0%"))
    ∧ (∀ (daily : List DailyRow) (ms : List MonthlyRow) (r : MonthlyRow),
        monthly_interception_rate daily = some ms → r ∈ ms →
          ∃ n : Int, rateValue r.launched r.destroyed = some n ∧ 0 ≤ n ∧
            (r.launched = 0 → n = 0 ∧ r.interception_rate = "0%"))
    ∧ (∀ (rows : List NormRow) (k : Date),
        k ∈ dailyKeys rows → dayLaunched rows k = 0 → dayDestroyed rows k ≠ 0 →
          aggregate_data rows = none) := by
  refine ⟨?_, ?_, ?_⟩
  · intro rows out r h hr
    obtain ⟨n, hn, hs⟩ := aggregate_data_mem h hr
    refine ⟨n, hn, rateValue_nonneg hn, fun hl => ?_⟩
    obtain ⟨-, hn0⟩ := rateValue_launched_zero (hl ▸ hn)
    exact ⟨hn0, by rw [hs, hn0]; rfl⟩
  · intro daily ms r h hr
    obtain ⟨n, hn, hs⟩ := monthly_rate_mem h hr
    refine ⟨n, hn, rateValue_nonneg hn, fun hl => ?_⟩
    obtain ⟨-, hn0⟩ := rateValue_launched_zero (hl ▸ hn)
    exact ⟨hn0, by rw [hs, hn0]; rfl⟩
  · intro rows k hk h0 hd
    have hnone : dailyRowOf rows k = none := by
      unfold dailyRowOf
      rw [h0]
      unfold rateValue
      rw [if_pos rfl, if_neg hd]
      rfl
    exact mapMOpt_eq_none hnone hk

/-- Witness for C1 amended: the three parts applied at concrete inputs —
the scenario's daily row of 2022-02-24 and monthly row of 2022-03, and the
raising input with launched 0, destroyed 1 on a single date. -/
theorem claim_C1_amended_witness :
    (∃ n : Int, rateValue 8 4 = some n ∧ 0 ≤ n ∧
        ((8 : Nat) = 0 → n = 0 ∧ ("50%" : String) = "0%"))
    ∧ (∃ n : Int, rateValue 0 0 = some n ∧ 0 ≤ n ∧
        ((0 : Nat) = 0 → n = 0 ∧ ("0%" : String) = "0%"))
    ∧ aggregate_data [{ date := some ⟨2022, 2, 24⟩, launched := 0, destroyed := 1 }] = none :=
  ⟨claim_C1_amended.1 scenarioNorm scenarioDaily
      { date := ⟨2022, 2, 24⟩, launched := 8, destroyed := 4, interception_rate := "50%" }
      (by decide) (by decide),
   claim_C1_amended.2.1 scenarioDaily scenarioMonthly
      { date := "2022-03", launched := 0, destroyed := 0, interception_rate := "0%" }
      (by decide) (by decide),
   claim_C1_amended.2.2 [{ date := some ⟨2022, 2, 24⟩, launched := 0, destroyed := 1 }]
      ⟨2022, 2, 24⟩ (by decide) (by decide) (by decide)⟩

/-- C7, counterexample: the Normalizer is not free of side effects on the
table passed to it.  Line 12 assigns to the `time_start` column of its
argument in place, so after `remove_time(data)` the caller's table equals
the returned one (the aliasing is modelled by the function's value being
the argument's post-state); on a row whose timestamp still carries a
time-of-day the post-state differs from the input. -/
theorem claim_C7_counterexample :
    remove_time
        [{ time_start := some "2022-02-24 04:00:00", time_end := none, model := none,
           launch_place := none, target := none, destroyed_details := none,
           carrier := none, source := none, launched := 5, destroyed := 1 }]
      ≠ [{ time_start := some "2022-02-24 04:00:00", time_end := none, model := none,
           launch_place := none, target := none, destroyed_details := none,
           carrier := none, source := none, launched := 5, destroyed := 1 }] := by
  decide

/-- C7, amended: the Normalizer's output is a pure per-row function of the
input values — `process_dataset(remove_time(data))` equals the traversal
of one row-wise function `normRowOf`, so it depends on nothing but the
table it is given — but it mutates the frame passed to it in place rather
than leaving it unchanged: the argument's post-state equals the returned
(normalized) table, and `remove_time` leaves its argument intact only when
every `time_start` cell is already its own stripped token.  (The app
itself passes a copy at line 140, which keeps the loaded table intact.) -/
theorem claim_C7_normalizer_pure_but_in_place :
    ∀ data : List RawRow,
      data_processed data = mapMOpt normRowOf data
      ∧ (remove_time data = data ↔
          ∀ r ∈ data, r.time_start = some (firstToken (astypeStr r.time_start))) :=
  fun data => ⟨data_processed_eq data, remove_time_eq_self_iff⟩

/-- C9, counterexample: a row whose launch-timestamp cell is missing does
not make the Normalizer fail.  `astype(str)` turns the missing value into
the string `nan`, which `pd.to_datetime` silently converts to `NaT`; the
normalizer returns a table (no error), and the daily aggregation then
drops the row entirely (its null key is discarded by `groupby`), yielding
an empty aggregate from a non-empty input. -/
theorem claim_C9_counterexample :
    data_processed
        [{ time_start := none, time_end := none, model := none,
           launch_place := none, target := none, destroyed_details := none,
           carrier := none, source := none, launched := 5, destroyed := 0 }]
      = some [{ date := none, launched := 5, destroyed := 0 }]
    ∧ aggregate_data [{ date := none, launched := 5, destroyed := 0 }] = some [] := by
  refine ⟨?_, ?_⟩ <;> decide

/-- C9, amended: a row whose launch-timestamp is present but unparseable
as a date does surface as an error — `pd.to_datetime` raises, so the whole
Normalizer fails; but a row whose timestamp is missing is silently coerced
to `NaT` instead (and later dropped by the aggregation), not surfaced as a
data-format error. -/
theorem claim_C9_unparseable_date_fails :
    ∀ (data : List RawRow),
      (∃ r ∈ data, toDatetimeDate (firstToken (astypeStr r.time_start)) = none) →
        data_processed data = none := by
  intro data ⟨r, hr, hparse⟩
  rw [data_processed_eq]
  refine mapMOpt_eq_none ?_ hr
  unfold normRowOf
  rw [hparse]
  rfl

/-- Witness for C9 amended: a table containing the unparseable timestamp
`2022-13-01` (month 13; `pd.to_datetime` raises on it) makes the
Normalizer fail. -/
theorem claim_C9_witness :
    data_processed
        [{ time_start := some "2022-13-01", time_end := none, model := none,
           launch_place := none, target := none, destroyed_details := none,
           carrier := none, source := none, launched := 1, destroyed := 0 }]
      = none :=
  claim_C9_unparseable_date_fails _ (by decide)

/-- C4: the range filter is exact on both granularities.  A row belongs to
the filtered daily table iff it is a daily aggregate row with
`start ≤ date ≤ end` (inclusive on both ends — nothing extra kept, nothing
in range dropped), and a row belongs to the filtered monthly table iff it
is a monthly row whose re-parsed month-start date lies in
`[start, end]`. -/
theorem claim_C4_filter_exact :
    (∀ (daily : List DailyRow) (s e : Date) (r : DailyRow),
        r ∈ filtered_data daily s e ↔ r ∈ daily ∧ s ≤ r.date ∧ r.date ≤ e)
    ∧ (∀ (monthly : List MonthlyRow) (s e : Date) (out : List MonthlyRow),
        filtered_monthly_data monthly s e = some out →
          ∀ r : MonthlyRow,
            r ∈ out ↔ r ∈ monthly ∧ ∃ d, parseYM r.date = some d ∧ s ≤ d ∧ d ≤ e) := by
  constructor
  · intro daily s e r
    unfold filtered_data
    rw [List.mem_filter]
    simp [decide_eq_true_eq]
  · intro monthly s e out h r
    unfold filtered_monthly_data at h
    split at h
    · simp only [Option.some.injEq] at h
      subst h
      rw [List.mem_filter]
      cases hp : parseYM r.date with
      | none => simp [hp]
      | some d => simp [hp]
    · cases h

/-- Witness for C4: the filter applied to the scenario tables with the
range 2022-03-01 to 2022-03-01 keeps exactly the 2022-03-01 daily row, and
keeps a monthly row exactly when its month-start date is in range. -/
theorem claim_C4_witness :
    ({ date := ⟨2022, 3, 1⟩, launched := 0, destroyed := 0, interception_rate := "0%" }
        ∈ filtered_data scenarioDaily ⟨2022, 3, 1⟩ ⟨2022, 3, 1⟩
      ↔ ({ date := ⟨2022, 3, 1⟩, launched := 0, destroyed := 0, interception_rate := "0%" }
            : DailyRow) ∈ scenarioDaily
          ∧ (⟨2022, 3, 1⟩ : Date) ≤ ⟨2022, 3, 1⟩ ∧ (⟨2022, 3, 1⟩ : Date) ≤ ⟨2022, 3, 1⟩)
    ∧ (∀ r : MonthlyRow,
        r ∈ [({ date := "2022-03", launched := 0, destroyed := 0,
                interception_rate := "0%" } : MonthlyRow)]
          ↔ r ∈ scenarioMonthly
              ∧ ∃ d, parseYM r.date = some d
                  ∧ (⟨2022, 3, 1⟩ : Date) ≤ d ∧ d ≤ ⟨2022, 3, 1⟩) :=
  ⟨claim_C4_filter_exact.1 scenarioDaily ⟨2022, 3, 1⟩ ⟨2022, 3, 1⟩
      { date := ⟨2022, 3, 1⟩, launched := 0, destroyed := 0, interception_rate := "0%" },
   claim_C4_filter_exact.2 scenarioMonthly ⟨2022, 3, 1⟩ ⟨2022, 3, 1⟩
      [{ date := "2022-03", launched := 0, destroyed := 0, interception_rate := "0%" }]
      (by decide)⟩

/-- C8: an inverted range (start after end) yields empty filtered output
on both granularities and raises no error: the daily filter returns the
empty table, and the monthly filter — on any monthly table whose labels
parse, as all labels produced by the pipeline do — returns the empty table
rather than failing. -/
theorem claim_C8_inverted_range_empty :
    ∀ (daily : List DailyRow) (monthly : List MonthlyRow) (s e : Date),
      e < s →
      (monthly.all fun r => (parseYM r.date).isSome) = true →
      filtered_data daily s e = [] ∧ filtered_monthly_data monthly s e = some [] := by
  intro daily monthly s e hlt hall
  have hempty : ∀ d : Date, ¬(s ≤ d ∧ d ≤ e) := fun d ⟨h1, h2⟩ =>
    Date.not_le_of_gt hlt (Date.le_trans h1 h2)
  constructor
  · unfold filtered_data
    rw [List.filter_eq_nil_iff]
    intro r _
    simp only [Bool.and_eq_true, decide_eq_true_eq]
    intro h
    exact hempty r.date h
  · unfold filtered_monthly_data
    rw [if_pos hall]
    congr 1
    rw [List.filter_eq_nil_iff]
    intro r _
    cases hp : parseYM r.date with
    | none => simp
    | some d =>
      simp only [Bool.and_eq_true, decide_eq_true_eq]
      intro h
      exact hempty d h

/-- Witness for C8: filtering the scenario tables with the inverted range
from 2022-03-01 back to 2022-02-01 yields empty daily and monthly
results. -/
theorem claim_C8_witness :
    filtered_data scenarioDaily ⟨2022, 3, 1⟩ ⟨2022, 2, 1⟩ = []
    ∧ filtered_monthly_data scenarioMonthly ⟨2022, 3, 1⟩ ⟨2022, 2, 1⟩ = some [] :=
  claim_C8_inverted_range_empty scenarioDaily scenarioMonthly ⟨2022, 3, 1⟩ ⟨2022, 2, 1⟩
    (by decide) (by decide)

/-! ### Column identities used for sum conservation and ordering -/

theorem normalizer_cols {data : List RawRow} {norm : List NormRow}
    (h : data_processed data = some norm) :
    norm.map (fun r => r.launched) = data.map (fun r => r.launched)
    ∧ norm.map (fun r => r.destroyed) = data.map (fun r => r.destroyed) := by
  rw [data_processed_eq] at h
  constructor
  · refine mapMOpt_eq_some_map (fun a b hab => ?_) h
    unfold normRowOf at hab
    cases htd : toDatetimeDate (firstToken (astypeStr a.time_start)) with
    | none => rw [htd] at hab; cases hab
    | some d =>
      rw [htd] at hab
      simp only [Option.map_some', Option.some.injEq] at hab
      rw [← hab]
  · refine mapMOpt_eq_some_map (fun a b hab => ?_) h
    unfold normRowOf at hab
    cases htd : toDatetimeDate (firstToken (astypeStr a.time_start)) with
    | none => rw [htd] at hab; cases hab
    | some d =>
      rw [htd] at hab
      simp only [Option.map_some', Option.some.injEq] at hab
      rw [← hab]

theorem aggregate_cols {rows : List NormRow} {out : List DailyRow}
    (h : aggregate_data rows = some out) :
    out.map (fun r => r.date) = dailyKeys rows
    ∧ out.map (fun r => r.launched) = (dailyKeys rows).map (dayLaunched rows)
    ∧ out.map (fun r => r.destroyed) = (dailyKeys rows).map (dayDestroyed rows) := by
  refine ⟨?_, ?_, ?_⟩
  · have := mapMOpt_eq_some_map (g := fun r : DailyRow => r.date) (h := fun k => k)
      (fun k row hk => by obtain ⟨v, hv, rfl⟩ := dailyRowOf_eq_some.mp hk; rfl) h
    simpa using this
  · exact mapMOpt_eq_some_map
      (fun k row hk => by obtain ⟨v, hv, rfl⟩ := dailyRowOf_eq_some.mp hk; rfl) h
  · exact mapMOpt_eq_some_map
      (fun k row hk => by obtain ⟨v, hv, rfl⟩ := dailyRowOf_eq_some.mp hk; rfl) h

theorem aggregate_sum_launched {rows : List NormRow} {out : List DailyRow}
    (h : aggregate_data rows = some out)
    (hs : ∀ r ∈ rows, (r.date).isSome = true) :
    (out.map fun r => r.launched).sum = (rows.map fun r => r.launched).sum := by
  rw [(aggregate_cols h).2.1]
  have hfib := sum_fibers (fun r : NormRow => r.date) (fun r => r.launched) rows
    (dailyKeys_nodup rows) (fun r hr k hk => mem_dailyKeys.mpr ⟨r, hr, hk⟩)
  rw [show (dailyKeys rows).map (dayLaunched rows)
      = (dailyKeys rows).map
          (fun k => ((rows.filter fun r => r.date == some k).map fun r => r.launched).sum)
    from rfl]
  rw [hfib, List.filter_eq_self.mpr hs]

theorem aggregate_sum_destroyed {rows : List NormRow} {out : List DailyRow}
    (h : aggregate_data rows = some out)
    (hs : ∀ r ∈ rows, (r.date).isSome = true) :
    (out.map fun r => r.destroyed).sum = (rows.map fun r => r.destroyed).sum := by
  rw [(aggregate_cols h).2.2]
  have hfib := sum_fibers (fun r : NormRow => r.date) (fun r => r.destroyed) rows
    (dailyKeys_nodup rows) (fun r hr k hk => mem_dailyKeys.mpr ⟨r, hr, hk⟩)
  rw [show (dailyKeys rows).map (dayDestroyed rows)
      = (dailyKeys rows).map
          (fun k => ((rows.filter fun r => r.date == some k).map fun r => r.destroyed).sum)
    from rfl]
  rw [hfib, List.filter_eq_self.mpr hs]

theorem monthly_cols {d : DailyRow} {ds : List DailyRow} {ms : List MonthlyRow}
    (h : monthly_interception_rate (d :: ds) = some ms) :
    ms.map (fun r => r.date)
      = (List.range' (loIdx d ds) (hiIdx d ds + 1 - loIdx d ds)).map monthLabel
    ∧ ms.map (fun r => r.launched)
      = (List.range' (loIdx d ds) (hiIdx d ds + 1 - loIdx d ds)).map (monthLaunched (d :: ds))
    ∧ ms.map (fun r => r.destroyed)
      = (List.range' (loIdx d ds) (hiIdx d ds + 1 - loIdx d ds)).map (monthDestroyed (d :: ds)) := by
  unfold monthly_interception_rate at h
  refine ⟨?_, ?_, ?_⟩
  · exact mapMOpt_eq_some_map
      (fun i row hi => by obtain ⟨v, hv, rfl⟩ := monthlyRowOf_eq_some.mp hi; rfl) h
  · exact mapMOpt_eq_some_map
      (fun i row hi => by obtain ⟨v, hv, rfl⟩ := monthlyRowOf_eq_some.mp hi; rfl) h
  · exact mapMOpt_eq_some_map
      (fun i row hi => by obtain ⟨v, hv, rfl⟩ := monthlyRowOf_eq_some.mp hi; rfl) h

theorem monthIdx_mem_range (d : DailyRow) (ds : List DailyRow) {r : DailyRow}
    (hr : r ∈ d :: ds) :
    monthIdx r.date ∈ List.range' (loIdx d ds) (hiIdx d ds + 1 - loIdx d ds) := by
  have h1 := loIdx_le d ds hr
  have h2 := le_hiIdx d ds hr
  have h3 := loIdx_le d ds (List.mem_cons_self d ds)
  have h4 := le_hiIdx d ds (List.mem_cons_self d ds)
  rw [List.mem_range'_1]
  omega

theorem monthly_sum_launched {daily : List DailyRow} {ms : List MonthlyRow}
    (h : monthly_interception_rate daily = some ms) :
    (ms.map fun r => r.launched).sum = (daily.map fun r => r.launched).sum := by
  cases daily with
  | nil =>
    unfold monthly_interception_rate at h
    simp only [Option.some.injEq] at h
    subst h
    rfl
  | cons d ds =>
    rw [(monthly_cols h).2.1]
    have hfib := sum_fibers (fun r : DailyRow => some (monthIdx r.date))
      (fun r => r.launched) (d :: ds)
      (List.nodup_range' (loIdx d ds) (hiIdx d ds + 1 - loIdx d ds))
      (fun r hr k hk => by
        have : monthIdx r.date = k := by
          simpa using hk
        exact this ▸ monthIdx_mem_range d ds hr)
    rw [show (List.range' (loIdx d ds) (hiIdx d ds + 1 - loIdx d ds)).map (monthLaunched (d :: ds))
        = (List.range' (loIdx d ds) (hiIdx d ds + 1 - loIdx d ds)).map
            (fun k => (((d :: ds).filter fun r => some (monthIdx r.date) == some k).map
              fun r => r.launched).sum)
      from rfl]
    rw [hfib]
    simp only [Option.isSome_some, List.filter_true]

theorem monthly_sum_destroyed {daily : List DailyRow} {ms : List MonthlyRow}
    (h : monthly_interception_rate daily = some ms) :
    (ms.map fun r => r.destroyed).sum = (daily.map fun r => r.destroyed).sum := by
  cases daily with
  | nil =>
    unfold monthly_interception_rate at h
    simp only [Option.some.injEq] at h
    subst h
    rfl
  | cons d ds =>
    rw [(monthly_cols h).2.2]
    have hfib := sum_fibers (fun r : DailyRow => some (monthIdx r.date))
      (fun r => r.destroyed) (d :: ds)
      (List.nodup_range' (loIdx d ds) (hiIdx d ds + 1 - loIdx d ds))
      (fun r hr k hk => by
        have : monthIdx r.date = k := by
          simpa using hk
        exact this ▸ monthIdx_mem_range d ds hr)
    rw [show (List.range' (loIdx d ds) (hiIdx d ds + 1 - loIdx d ds)).map (monthDestroyed (d :: ds))
        = (List.range' (loIdx d ds) (hiIdx d ds + 1 - loIdx d ds)).map
            (fun k => (((d :: ds).filter fun r => some (monthIdx r.date) == some k).map
              fun r => r.destroyed).sum)
      from rfl]
    rw [hfib]
    simp only [Option.isSome_some, List.filter_true]

/-- C2: sum conservation along the pipeline.  For an event table whose
rows all carry a date (the event-record shape of the data model — rows
with a null date would be dropped by `groupby`), the total of the
`launched` column is preserved from the input rows to the daily aggregate
and from the daily aggregate to the monthly aggregate, and likewise for
the `destroyed` column. -/
theorem claim_C2_sum_conservation :
    ∀ (data : List RawRow) (norm : List NormRow) (out : List DailyRow) (ms : List MonthlyRow),
      data_processed data = some norm →
      (∀ r ∈ norm, (r.date).isSome = true) →
      aggregate_data norm = some out →
      monthly_interception_rate out = some ms →
      ((data.map fun r => r.launched).sum = (norm.map fun r => r.launched).sum
        ∧ (norm.map fun r => r.launched).sum = (out.map fun r => r.launched).sum
        ∧ (out.map fun r => r.launched).sum = (ms.map fun r => r.launched).sum)
      ∧ ((data.map fun r => r.destroyed).sum = (norm.map fun r => r.destroyed).sum
        ∧ (norm.map fun r => r.destroyed).sum = (out.map fun r => r.destroyed).sum
        ∧ (out.map fun r => r.destroyed).sum = (ms.map fun r => r.destroyed).sum) := by
  intro data norm out ms hn hs ha hm
  obtain ⟨hL, hD⟩ := normalizer_cols hn
  exact ⟨⟨(congrArg List.sum hL).symm, (aggregate_sum_launched ha hs).symm,
      (monthly_sum_launched hm).symm⟩,
    ⟨(congrArg List.sum hD).symm, (aggregate_sum_destroyed ha hs).symm,
      (monthly_sum_destroyed hm).symm⟩⟩

/-- Witness for C2: on the scenario tables the launched totals are
8 = 8 = 8 and the destroyed totals 4 = 4 = 4 across all three stages. -/
theorem claim_C2_witness :
    ((scenarioRaw.map fun r => r.launched).sum = (scenarioNorm.map fun r => r.launched).sum
      ∧ (scenarioNorm.map fun r => r.launched).sum = (scenarioDaily.map fun r => r.launched).sum
      ∧ (scenarioDaily.map fun r => r.launched).sum = (scenarioMonthly.map fun r => r.launched).sum)
    ∧ ((scenarioRaw.map fun r => r.destroyed).sum = (scenarioNorm.map fun r => r.destroyed).sum
      ∧ (scenarioNorm.map fun r => r.destroyed).sum = (scenarioDaily.map fun r => r.destroyed).sum
      ∧ (scenarioDaily.map fun r => r.destroyed).sum = (scenarioMonthly.map fun r => r.destroyed).sum) :=
  claim_C2_sum_conservation scenarioRaw scenarioNorm scenarioDaily scenarioMonthly
    (by decide) (by decide) (by decide) (by decide)

theorem map_filter_comm {α β : Type} (f : α → β) (q : β → Bool) (l : List α) :
    (l.filter fun a => q (f a)).map f = (l.map f).filter q := by
  induction l with
  | nil => rfl
  | cons a as ih =>
    by_cases h : q (f a) <;> simp [h, ih]

theorem filtered_monthly_eq {ms fms : List MonthlyRow} {s e : Date}
    (hf : filtered_monthly_data ms s e = some fms) :
    fms = ms.filter fun r =>
      match parseYM r.date with
      | some d0 => decide (s ≤ d0) && decide (d0 ≤ e)
      | none => false := by
  unfold filtered_monthly_data at hf
  split at hf
  · simp only [Option.some.injEq] at hf
    exact hf.symm
  · cases hf

/-- C6: the aggregate tables are sorted ascending at every stage.  The
daily aggregate is strictly increasing in `date`, and stays so after the
range filter; the monthly aggregate's `date` column is the label sequence
of a strictly increasing list of month buckets, and stays so after the
range filter. -/
theorem claim_C6_sorted_ascending :
    ∀ (rows : List NormRow) (out : List DailyRow) (ms : List MonthlyRow)
      (s e : Date) (fms : List MonthlyRow),
      aggregate_data rows = some out →
      monthly_interception_rate out = some ms →
      filtered_monthly_data ms s e = some fms →
      out.Pairwise (fun a b => a.date < b.date)
      ∧ (filtered_data out s e).Pairwise (fun a b => a.date < b.date)
      ∧ (∃ is : List Nat, is.Pairwise (· < ·)
          ∧ ms.map (fun r => r.date) = is.map monthLabel)
      ∧ (∃ js : List Nat, js.Pairwise (· < ·)
          ∧ fms.map (fun r => r.date) = js.map monthLabel) := by
  intro rows out ms s e fms ha hm hf
  have hdaily : out.Pairwise (fun a b => a.date < b.date) := by
    have hk := dailyKeys_sorted rows
    rw [← (aggregate_cols ha).1] at hk
    exact (List.pairwise_map).mp hk
  obtain ⟨is, his, hlab⟩ :
      ∃ is : List Nat, is.Pairwise (· < ·)
        ∧ ms.map (fun r => r.date) = is.map monthLabel := by
    cases out with
    | nil =>
      unfold monthly_interception_rate at hm
      simp only [Option.some.injEq] at hm
      subst hm
      exact ⟨[], List.Pairwise.nil, rfl⟩
    | cons d ds =>
      exact ⟨List.range' (loIdx d ds) (hiIdx d ds + 1 - loIdx d ds),
        List.pairwise_lt_range' _ _, (monthly_cols hm).1⟩
  refine ⟨hdaily, List.Pairwise.filter _ hdaily, ⟨is, his, hlab⟩, ?_⟩
  refine ⟨is.filter fun i =>
      match parseYM (monthLabel i) with
      | some d0 => decide (s ≤ d0) && decide (d0 ≤ e)
      | none => false,
    List.Pairwise.filter _ his, ?_⟩
  rw [filtered_monthly_eq hf]
  calc (ms.filter fun r =>
          match parseYM r.date with
          | some d0 => decide (s ≤ d0) && decide (d0 ≤ e)
          | none => false).map (fun r => r.date)
      = (ms.map fun r => r.date).filter fun sd =>
          match parseYM sd with
          | some d0 => decide (s ≤ d0) && decide (d0 ≤ e)
          | none => false :=
        map_filter_comm (fun r : MonthlyRow => r.date)
          (fun sd =>
            match parseYM sd with
            | some d0 => decide (s ≤ d0) && decide (d0 ≤ e)
            | none => false) ms
    _ = (is.map monthLabel).filter fun sd =>
          match parseYM sd with
          | some d0 => decide (s ≤ d0) && decide (d0 ≤ e)
          | none => false := by rw [hlab]
    _ = (is.filter fun i =>
          match parseYM (monthLabel i) with
          | some d0 => decide (s ≤ d0) && decide (d0 ≤ e)
          | none => false).map monthLabel :=
        (map_filter_comm monthLabel
          (fun sd =>
            match parseYM sd with
            | some d0 => decide (s ≤ d0) && decide (d0 ≤ e)
            | none => false) is).symm

/-- Witness for C6: the theorem applied to the scenario pipeline with the
full range 2022-02-01 to 2022-03-31. -/
theorem claim_C6_witness :
    scenarioDaily.Pairwise (fun a b => a.date < b.date)
    ∧ (filtered_data scenarioDaily ⟨2022, 2, 1⟩ ⟨2022, 3, 31⟩).Pairwise
        (fun a b => a.date < b.date)
    ∧ (∃ is : List Nat, is.Pairwise (· < ·)
        ∧ scenarioMonthly.map (fun r => r.date) = is.map monthLabel)
    ∧ (∃ js : List Nat, js.Pairwise (· < ·)
        ∧ (scenarioMonthly.map fun r => r.date) = js.map monthLabel) := by
  have h := claim_C6_sorted_ascending scenarioNorm scenarioDaily scenarioMonthly
    ⟨2022, 2, 1⟩ ⟨2022, 3, 31⟩ scenarioMonthly (by decide) (by decide) (by decide)
  exact ⟨h.1, h.2.1, h.2.2.1, by
    obtain ⟨js, hjs, hl⟩ := h.2.2.2
    exact ⟨js, hjs, hl⟩⟩

/-- C3: month coverage.  For a non-empty daily aggregate whose dates are
calendar-valid, the monthly table's `date` column is exactly the sequence
of `YYYY-MM` labels of the consecutive month buckets from the month of the
minimum daily date to the month of the maximum daily date — one row per
calendar month in that span, in order, with no gaps — and any monthly row
whose month contains no daily row has `launched = 0`, `destroyed = 0` and
rate cell `0%`. -/
theorem claim_C3_month_coverage :
    ∀ (d : DailyRow) (ds : List DailyRow) (ms : List MonthlyRow),
      monthly_interception_rate (d :: ds) = some ms →
      (∀ r ∈ d :: ds, ValidDate r.date) →
      ∃ dmin dmax : Date,
        (∃ rm ∈ d :: ds, rm.date = dmin) ∧ (∃ rM ∈ d :: ds, rM.date = dmax)
        ∧ (∀ r ∈ d :: ds, dmin ≤ r.date ∧ r.date ≤ dmax)
        ∧ ms.map (fun r => r.date)
            = (List.range' (monthIdx dmin) (monthIdx dmax + 1 - monthIdx dmin)).map monthLabel
        ∧ (∀ r ∈ ms, (∀ rd ∈ d :: ds, monthLabel (monthIdx rd.date) ≠ r.date) →
            r.launched = 0 ∧ r.destroyed = 0 ∧ r.interception_rate = "0%") := by
  intro d ds ms hm hv
  refine ⟨minDate d ds, maxDate d ds, minDate_mem d ds, maxDate_mem d ds,
    fun r hr => ⟨minDate_le d ds hr, le_maxDate d ds hr⟩, ?_, ?_⟩
  · rw [(monthly_cols hm).1, loIdx_eq_minDate d ds hv, hiIdx_eq_maxDate d ds hv]
  · intro r hr hlab
    unfold monthly_interception_rate at hm
    obtain ⟨i, _, hrow⟩ := mapMOpt_mem hm r hr
    obtain ⟨v, hv', rfl⟩ := monthlyRowOf_eq_some.mp hrow
    have hempty : monthGroup (d :: ds) i = [] := by
      unfold monthGroup
      rw [List.filter_eq_nil_iff]
      intro rd hrd hbeq
      have heq : monthIdx rd.date = i := by simpa using hbeq
      exact hlab rd hrd (by rw [heq])
    have hL : monthLaunched (d :: ds) i = 0 := by
      unfold monthLaunched
      rw [hempty]
      rfl
    have hD : monthDestroyed (d :: ds) i = 0 := by
      unfold monthDestroyed
      rw [hempty]
      rfl
    have hv0 : v = 0 := by
      rw [hL, hD] at hv'
      have h00 : rateValue 0 0 = some 0 := rfl
      rw [h00, Option.some.injEq] at hv'
      exact hv'.symm
    exact ⟨hL, hD, by rw [hv0]; rfl⟩

/-- Witness for C3: the theorem applied to the scenario's daily table
(dates 2022-02-24 and 2022-03-01). -/
theorem claim_C3_witness :
    ∃ dmin dmax : Date,
      (∃ rm ∈ scenarioDaily, rm.date = dmin) ∧ (∃ rM ∈ scenarioDaily, rM.date = dmax)
      ∧ (∀ r ∈ scenarioDaily, dmin ≤ r.date ∧ r.date ≤ dmax)
      ∧ scenarioMonthly.map (fun r => r.date)
          = (List.range' (monthIdx dmin) (monthIdx dmax + 1 - monthIdx dmin)).map monthLabel
      ∧ (∀ r ∈ scenarioMonthly,
          (∀ rd ∈ scenarioDaily, monthLabel (monthIdx rd.date) ≠ r.date) →
            r.launched = 0 ∧ r.destroyed = 0 ∧ r.interception_rate = "0%") :=
  claim_C3_month_coverage
    { date := ⟨2022, 2, 24⟩, launched := 8, destroyed := 4, interception_rate := "50%" }
    [{ date := ⟨2022, 3, 1⟩, launched := 0, destroyed := 0, interception_rate := "0%" }]
    scenarioMonthly (by decide) (by decide)
